import Mathlib

/-!
Verification development for the streaming voice-chat proxy
(`server/qwen_tts_proxy/app.py`).

The Python source is shallowly embedded: strings are lists of characters
(`Str`), byte strings are lists of naturals, the WebSocket connection
handler and the synthesis-bridge worker become pure functions over
explicit state, and the external collaborators (transcription, reply
streaming, the realtime synthesis client, the socket itself) are
parameters or oracle fields of an environment record, with one Boolean
per fallible call saying whether that call raises.
-/

namespace QwenProxy

/-- Text is modelled as a list of Unicode code points, so that `length`
matches Python's `len` on `str` (code points). -/
abbrev Str := List Char

/-- ASCII whitespace, modelling the default character set stripped by
Python's `str.strip()`. -/
def isPyWhitespace (c : Char) : Bool :=
  c = ' ' || c = '\t' || c = '\n' || c = '\r' || c = '\x0b' || c = '\x0c'

/-- Model of Python `s.strip()`: drop leading and trailing whitespace. -/
def pyStrip (s : Str) : Str :=
  ((s.dropWhile isPyWhitespace).reverse.dropWhile isPyWhitespace).reverse

/-- Model of `"".join(parts)`. -/
def joinStr (l : List Str) : Str := l.flatten

/-! ## Conversational-memory trimming (`_trim_session`, app.py lines 339-345) -/

/-- Model of the Python slice `l[-k:]`.  For `k = 0` Python reads this as
`l[0:]`, i.e. the whole list; for `k ≥ 1` it is the last `k` elements
(the whole list when `k` exceeds the length). -/
def pyTailSlice (l : List α) (k : Nat) : List α :=
  if k = 0 then l else l.drop (l.length - k)

/-- `_trim_session(msgs, keep)` (app.py 339-345): keep the first message
plus the tail slice `msgs[-keep:]` once the list is longer than
`1 + keep`. -/
def trim_session (msgs : List α) (keep : Nat) : List α :=
  if msgs.length ≤ 1 + keep then msgs
  else msgs.take 1 ++ pyTailSlice msgs keep

/-! ## Flush policy (`_qwen_chat_to_realtime_tts_pcm_stream`, app.py 262-280) -/

/-- The terminator tuple of `pending.endswith(...)` at app.py 267-269:
wide full stop, wide exclamation, wide question mark, ASCII `!`, ASCII
`?`, and newline. -/
def terminatorChars : List Char := ['。', '！', '？', '!', '?', '\n']

/-- `pending.endswith(tuple)`: every tuple member is a single character,
so this is membership of the last character. The empty string ends with
none of them. -/
def endsWithTerm (pending : Str) : Bool :=
  match pending.getLast? with
  | some c => decide (c ∈ terminatorChars)
  | none => false

/-- The flush condition of app.py 267-269, evaluated on the pending text
after the newest delta has been appended. -/
def shouldFlush (sent_any : Bool) (pending : Str) : Bool :=
  (!sent_any && decide (8 ≤ pending.length))
    || decide (24 ≤ pending.length)
    || endsWithTerm pending

/-- State of the streaming reply loop at app.py 256-272: the collected
assistant fragments, the pending (unflushed) text, whether anything was
flushed yet, and the texts handed to `client.append_text` so far. -/
structure LlmTtsState where
  assistant_text_parts : List Str
  pending : Str
  sent_any : Bool
  tts_texts : List Str
deriving DecidableEq

/-- One iteration of the reply-stream loop body (app.py 262-272): record
the delta, grow the pending text, and flush it to the synthesis session
when the flush condition holds. -/
def llmStep (st : LlmTtsState) (delta : Str) : LlmTtsState :=
  let parts := st.assistant_text_parts ++ [delta]
  let pending := st.pending ++ delta
  if shouldFlush st.sent_any pending then
    ⟨parts, [], true, st.tts_texts ++ [pending]⟩
  else
    ⟨parts, pending, st.sent_any, st.tts_texts⟩

/-- A sentence-terminating punctuation mark as the specification words
it: a wide or ASCII form, or a newline. -/
def SpecTerminator (c : Char) : Prop :=
  c = '。' ∨ c = '！' ∨ c = '？' ∨ c = '!' ∨ c = '?' ∨ c = '\n'

/-- The flush rule as the specification words it: flush exactly when
nothing has been flushed yet and the pending length reached 8 code
points, or the pending length reached 24 code points, or the pending
text ends with a sentence terminator. -/
def SpecFlush (flushed_already : Bool) (pending : Str) : Prop :=
  (flushed_already = false ∧ 8 ≤ pending.length)
    ∨ 24 ≤ pending.length
    ∨ (∃ c, pending.getLast? = some c ∧ SpecTerminator c)

theorem shouldFlush_iff (sent_any : Bool) (pending : Str) :
    shouldFlush sent_any pending = true ↔ SpecFlush sent_any pending := by
  unfold shouldFlush SpecFlush endsWithTerm SpecTerminator terminatorChars
  cases h : pending.getLast? with
  | none =>
      cases sent_any <;> simp
  | some c =>
      cases sent_any <;>
        simp [List.mem_cons, or_assoc]

/-- Claim C2: after each reply-stream increment, a flush occurs exactly
when (nothing flushed yet and pending length ≥ 8 code points) or pending
length ≥ 24 or the pending text ends with a sentence-terminating
punctuation mark (wide or ASCII forms, or a newline); a flush hands the
pending text to the synthesis session's text input and clears the
pending buffer, and otherwise the pending text just accumulates. -/
theorem flush_policy_matches_spec (st : LlmTtsState) (delta : Str) :
    (shouldFlush st.sent_any (st.pending ++ delta) = true
        ↔ SpecFlush st.sent_any (st.pending ++ delta))
    ∧ llmStep st delta =
        (if shouldFlush st.sent_any (st.pending ++ delta) then
          ⟨st.assistant_text_parts ++ [delta], [], true,
            st.tts_texts ++ [st.pending ++ delta]⟩
        else
          ⟨st.assistant_text_parts ++ [delta], st.pending ++ delta,
            st.sent_any, st.tts_texts⟩ : LlmTtsState) := by
  refine ⟨shouldFlush_iff _ _, ?_⟩
  unfold llmStep
  by_cases h : shouldFlush st.sent_any (st.pending ++ delta) <;> simp [h]

/-! ## C10: the memory-trim operation -/

/-- Claim C10, counterexample: with `keep = 0` and a two-element list the
claim promises a result of length at most `0 + 1`, but the Python slice
`msgs[-0:]` is the whole list, so the result is `[m0, m0, m1]` of
length 3. -/
theorem trim_session_keep_zero_cex :
    trim_session [0, 1] 0 = [0, 0, 1]
      ∧ ¬ (trim_session ([0, 1] : List Nat) 0).length ≤ 0 + 1 := by
  constructor <;> decide

theorem length_pyTailSlice_of_le {l : List α} {k : Nat} (h1 : 1 ≤ k)
    (h2 : k ≤ l.length) : (pyTailSlice l k).length = k := by
  unfold pyTailSlice
  rw [if_neg (by omega)]
  rw [List.length_drop]
  omega

/-- Claim C10 (amended to `keep ≥ 1`): the trim operation preserves the
first (system) message, leaves the list unchanged when its length is at
most `keep + 1`, and otherwise replaces it with the first message
followed by exactly the last `keep` messages in order, so the result
always has length at most `keep + 1`. -/
theorem trim_session_amended (msgs : List α) (keep : Nat)
    (hne : msgs ≠ []) (hk : 1 ≤ keep) :
    (msgs.length ≤ keep + 1 → trim_session msgs keep = msgs)
    ∧ (trim_session msgs keep).head? = msgs.head?
    ∧ (keep + 1 < msgs.length →
        trim_session msgs keep = msgs.take 1 ++ msgs.drop (msgs.length - keep))
    ∧ (trim_session msgs keep).length ≤ keep + 1 := by
  by_cases hle : msgs.length ≤ 1 + keep
  · refine ⟨fun _ => ?_, ?_, fun hlt => ?_, ?_⟩
    · simp [trim_session, hle]
    · simp [trim_session, hle]
    · omega
    · simp only [trim_session, if_pos hle]
      omega
  · have hlen : keep + 1 < msgs.length := by omega
    have htr : trim_session msgs keep
        = msgs.take 1 ++ msgs.drop (msgs.length - keep) := by
      simp only [trim_session, if_neg hle, pyTailSlice, if_neg (by omega : ¬ keep = 0)]
    refine ⟨fun h => by omega, ?_, fun _ => htr, ?_⟩
    · rw [htr]
      cases msgs with
      | nil => exact absurd rfl hne
      | cons a l => simp [List.take_succ_cons]
    · rw [htr]
      rw [List.length_append, List.length_take, List.length_drop]
      omega

/-- Witness for the amended C10 at a concrete input: five messages
trimmed with `keep = 2` keep the head and shrink to length `3`. -/
theorem trim_session_amended_witness :
    (trim_session [10, 11, 12, 13, 14] 2).head? = some 10
      ∧ (trim_session ([10, 11, 12, 13, 14] : List Nat) 2).length ≤ 2 + 1 := by
  have h := trim_session_amended ([10, 11, 12, 13, 14] : List Nat) 2
    (by decide) (by decide)
  refine ⟨?_, h.2.2.2⟩
  rw [h.2.1]
  decide

/-! ## Synthesis-bridge worker (`_qwen_chat_to_realtime_tts_pcm_stream._run`,
app.py 244-304)

The worker thread drives one realtime synthesis session: connect,
configure, stream the reply and flush increments through `append_text`,
run the fallback non-streaming reply call if the streamed loop raises,
flush the remainder (or the fixed apology when the reply was all
whitespace), record the assistant turn, call `finish`, and in a
`finally` block always enqueue the `None` end marker.  Each fallible
external call is modelled by a Boolean oracle in `WorkerEnv`, and the
chunks enqueued by the event callback thread are the oracle field
`cb_chunks`. -/

/-- A chat turn (one element of the `msgs` list). -/
structure ChatMsg where
  role : Str
  content : Str
deriving DecidableEq

/-- Which step of the worker's `try` body raised (the exception captured
by the outer `except` at app.py 292-294). -/
inductive WErr
  | connectErr
  | configureErr
  | fallbackErr
  | postAppendErr
  | finishErr
deriving DecidableEq

/-- Failure-injection environment for one worker execution. `deltas` is
the reply-token stream; `stream_raise_at = some i` makes the stream
raise when the i-th delta is pulled; `loop_append_fail_at = some n`
makes the n-th in-loop `append_text` call raise; the remaining `_ok`
flags govern the other external calls. -/
structure WorkerEnv where
  deltas : List Str
  connect_ok : Bool
  configure_ok : Bool
  stream_raise_at : Option Nat
  loop_append_fail_at : Option Nat
  fallback_ok : Bool
  fallback_text : Str
  post_append_ok : Bool
  finish_ok : Bool
  cb_chunks : List (List Nat)
  msgs : List ChatMsg
  keep : Nat

/-- Accumulator of the streaming loop at app.py 256-272, extended with
counters for the in-loop `append_text` calls and their injected
failures. -/
structure LoopAcc where
  parts : List Str
  pending : Str
  sent_any : Bool
  tts : List Str
  append_calls : Nat
  append_failures : Nat
deriving DecidableEq

def loopAcc0 : LoopAcc := ⟨[], [], false, [], 0, 0⟩

/-- The `for delta in _qwen_chat_stream(...)` loop (app.py 262-272).
Returns the accumulator and whether the loop body or the stream raised
(in which case control passes to the inner `except` fallback at app.py
273-277).  `i` counts how many deltas have been pulled. -/
def streamGo (env : WorkerEnv) : Nat → LoopAcc → List Str → LoopAcc × Bool
  | i, acc, l =>
    if env.stream_raise_at = some i then (acc, true)
    else
      match l with
      | [] => (acc, false)
      | d :: rest =>
        let parts := acc.parts ++ [d]
        let pending := acc.pending ++ d
        if shouldFlush acc.sent_any pending then
          if env.loop_append_fail_at = some acc.append_calls then
            ({ acc with
                parts := parts
                pending := pending
                append_calls := acc.append_calls + 1
                append_failures := acc.append_failures + 1 }, true)
          else
            streamGo env (i + 1)
              ⟨parts, [], true, acc.tts ++ [pending], acc.append_calls + 1,
                acc.append_failures⟩ rest
        else
          streamGo env (i + 1) { acc with parts := parts, pending := pending } rest

/-- The fixed fallback apology sentence of app.py 284. -/
def apologyText : Str := "我想了一下，但不知道怎么回答。".data

/-- The tail of the worker's `try` body (app.py 279-290): flush any
pending remainder, substitute the apology when the assistant text is
all whitespace, flush it, record the assistant turn and trim the
session, then call `finish`.  Returns the `append_text` payload list,
the updated message list, the in-loop append-failure count, and the
exception (if any) that escapes to the outer `except`. -/
def workerFinish (env : WorkerEnv) (parts : List Str) (pending : Str)
    (tts : List Str) (af : Nat) : (List Str × List ChatMsg × Nat) × Option WErr :=
  if pending ≠ [] ∧ env.post_append_ok = false then
    ((tts, env.msgs, af), some .postAppendErr)
  else
    let tts1 := if pending ≠ [] then tts ++ [pending] else tts
    let ft := pyStrip (joinStr parts)
    if ft = [] ∧ env.post_append_ok = false then
      ((tts1, env.msgs, af), some .postAppendErr)
    else
      let full_text := if ft = [] then apologyText else ft
      let tts2 := if ft = [] then tts1 ++ [apologyText] else tts1
      let msgs1 := trim_session (env.msgs ++ [ChatMsg.mk ("assistant".data) full_text]) env.keep
      if env.finish_ok = false then ((tts2, msgs1, af), some .finishErr)
      else ((tts2, msgs1, af), none)

/-- The worker's `try` body (app.py 246-291): connect, configure, run the
streamed loop, fall back to the blocking reply call when it raised, and
finish.  The second component is the exception reaching the outer
`except`, if any. -/
def workerTry (env : WorkerEnv) : (List Str × List ChatMsg × Nat) × Option WErr :=
  if env.connect_ok = false then (([], env.msgs, 0), some .connectErr)
  else if env.configure_ok = false then (([], env.msgs, 0), some .configureErr)
  else
    let r := streamGo env 0 loopAcc0 env.deltas
    let acc := r.1
    if r.2 then
      if env.fallback_ok = false then
        ((acc.tts, env.msgs, acc.append_failures), some .fallbackErr)
      else workerFinish env [env.fallback_text] env.fallback_text acc.tts acc.append_failures
    else workerFinish env acc.parts acc.pending acc.tts acc.append_failures

/-- Observable outcome of one worker execution: the error slot, the
cancellation signal, the full channel trace (callback puts followed by
the worker's `finally`-put sentinel), the `append_text` payloads, the
final message list, and the count of in-loop append failures. -/
structure WorkerOut where
  error : Option WErr
  stop_set : Bool
  chan : List (Option (List Nat))
  tts_texts : List Str
  msgs : List ChatMsg
  append_failures : Nat
deriving DecidableEq

/-- `_run` (app.py 244-304): run the `try` body; the outer `except`
captures the exception into the error slot and sets the stop event; the
`finally` block always enqueues the `None` sentinel after whatever the
callback thread enqueued. -/
def runWorker (env : WorkerEnv) : WorkerOut :=
  let r := workerTry env
  ⟨r.2, r.2.isSome, env.cb_chunks.map some ++ [none], r.1.1, r.1.2.1, r.1.2.2⟩

theorem streamGo_no_fail (env : WorkerEnv) (hs : env.stream_raise_at = none)
    (hl : env.loop_append_fail_at = none) :
    ∀ (l : List Str) (i : Nat) (acc : LoopAcc),
      (streamGo env i acc l).1.parts = acc.parts ++ l
        ∧ (streamGo env i acc l).2 = false := by
  intro l
  induction l with
  | nil =>
      intro i acc
      rw [streamGo]
      simp [hs]
  | cons d rest ih =>
      intro i acc
      rw [streamGo]
      simp only [hs]
      simp only [reduceCtorEq, if_false]
      split
      · rw [hl]
        simp only [reduceCtorEq, if_false]
        have h := ih (i + 1)
          ⟨acc.parts ++ [d], [], true, acc.tts ++ [acc.pending ++ d],
            acc.append_calls + 1, acc.append_failures⟩
        simpa using h
      · have h := ih (i + 1) { acc with parts := acc.parts ++ [d], pending := acc.pending ++ d }
        simpa using h

theorem workerFinish_snd (env : WorkerEnv) (parts : List Str)
    (pending : Str) (tts : List Str) (af : Nat) :
    (workerFinish env parts pending tts af).2 =
      (if pending ≠ [] ∧ env.post_append_ok = false then some .postAppendErr
        else if pyStrip (joinStr parts) = [] ∧ env.post_append_ok = false then
          some .postAppendErr
        else if env.finish_ok = false then some .finishErr
        else none) := by
  unfold workerFinish
  split_ifs <;> simp_all <;> (try (split_ifs <;> simp_all))

theorem workerFinish_error_none (env : WorkerEnv) (parts : List Str)
    (pending : Str) (tts : List Str) (af : Nat)
    (h : (workerFinish env parts pending tts af).2 = none) :
    env.finish_ok = true := by
  rw [workerFinish_snd] at h
  split_ifs at h <;> simp_all

/-- Claim C3 (amended): the channel trace always ends with the `None`
sentinel and the cancellation signal is set exactly when an error was
captured; failures of connect, configure, the non-streaming fallback
call, and finish are captured into the error slot.  (An `append_text`
failure inside the streaming loop is instead handled by the
non-streaming fallback; see the counterexample.) -/
theorem worker_cleanup_guarantees (env : WorkerEnv) :
    (runWorker env).chan.getLast? = some none
    ∧ (runWorker env).stop_set = (runWorker env).error.isSome
    ∧ (env.connect_ok = false → (runWorker env).error = some .connectErr)
    ∧ (env.connect_ok = true → env.configure_ok = false →
        (runWorker env).error = some .configureErr)
    ∧ (env.connect_ok = true → env.configure_ok = true →
        (streamGo env 0 loopAcc0 env.deltas).2 = true → env.fallback_ok = false →
        (runWorker env).error = some .fallbackErr)
    ∧ (env.connect_ok = true → env.configure_ok = true →
        (streamGo env 0 loopAcc0 env.deltas).2 = false →
        env.post_append_ok = false →
        ((streamGo env 0 loopAcc0 env.deltas).1.pending ≠ []
          ∨ pyStrip (joinStr (streamGo env 0 loopAcc0 env.deltas).1.parts) = []) →
        (runWorker env).error = some .postAppendErr)
    ∧ ((runWorker env).error = none → env.finish_ok = true) := by
  refine ⟨?_, rfl, ?_, ?_, ?_, ?_, ?_⟩
  pick_goal 5
  · intro h1 h2 h3 h4 h5
    simp only [runWorker, workerTry, h1, h2, h3, Bool.true_eq_false, if_false,
      Bool.false_eq_true, ite_false]
    rw [workerFinish_snd]
    by_cases hp : (streamGo env 0 loopAcc0 env.deltas).1.pending ≠ []
    · rw [if_pos ⟨hp, h4⟩]
    · rw [if_neg (by simp [hp])]
      rcases h5 with h5 | h5
      · exact absurd h5 hp
      · rw [if_pos ⟨h5, h4⟩]
  · simp [runWorker]
  · intro h
    simp [runWorker, workerTry, h]
  · intro h1 h2
    simp [runWorker, workerTry, h1, h2]
  · intro h1 h2 h3 h4
    simp [runWorker, workerTry, h1, h2, h3, h4]
  · intro h
    simp only [runWorker, workerTry] at h
    split_ifs at h <;>
      first
        | exact workerFinish_error_none _ _ _ _ _ h
        | simp_all

/-- Environment in which the only failure is the first in-loop
`append_text` call: the 8-character first delta triggers the first
flush, that flush raises, and the non-streaming fallback then
succeeds. -/
def envLoopAppendFail : WorkerEnv :=
  { deltas := ["abcdefgh".data]
    connect_ok := true
    configure_ok := true
    stream_raise_at := none
    loop_append_fail_at := some 0
    fallback_ok := true
    fallback_text := "好的。".data
    post_append_ok := true
    finish_ok := true
    cb_chunks := []
    msgs := []
    keep := 12 }

/-- Claim C3, counterexample: in `envLoopAppendFail` an `append_text`
call fails (one in-loop append failure is recorded), yet the error slot
stays empty and the cancellation signal is not set, because the inner
`except` at app.py 273-277 swallows the failure and falls back to the
non-streaming reply call. -/
theorem loop_append_failure_not_captured :
    (runWorker envLoopAppendFail).append_failures = 1
    ∧ (runWorker envLoopAppendFail).error = none
    ∧ (runWorker envLoopAppendFail).stop_set = false := by
  decide

def envConnectFail : WorkerEnv := { envLoopAppendFail with connect_ok := false }

/-- Witness for the amended C3: with a failing connect, the error slot
holds the connect failure, the stop event is set, and the channel still
ends with the sentinel. -/
theorem worker_cleanup_guarantees_witness :
    (runWorker envConnectFail).chan.getLast? = some none
    ∧ (runWorker envConnectFail).error = some .connectErr
    ∧ (runWorker envConnectFail).stop_set = true := by
  have h := worker_cleanup_guarantees envConnectFail
  refine ⟨h.1, h.2.2.1 rfl, ?_⟩
  rw [h.2.1, h.2.2.1 rfl]
  rfl

theorem getLast?_trim_session (l : List α) (keep : Nat) (hk : 1 ≤ keep) :
    (trim_session l keep).getLast? = l.getLast? := by
  unfold trim_session
  split
  · rfl
  · rename_i h
    have hlen : 1 + keep < l.length := by omega
    rw [pyTailSlice, if_neg (by omega : ¬ keep = 0)]
    have hd : l.drop (l.length - keep) ≠ [] := by
      rw [Ne, List.drop_eq_nil_iff]
      omega
    rw [List.getLast?_append_of_ne_nil _ hd]
    conv_rhs => rw [← List.take_append_drop (l.length - keep) l]
    rw [List.getLast?_append_of_ne_nil _ hd]

/-- Claim C6: if the reply stream produced zero non-whitespace text (the
concatenation of all fragments is empty after stripping), the fixed
fallback apology sentence is handed to the synthesis session as the
last text input and recorded as the assistant turn in the session
memory. -/
theorem workerFinish_apology (env : WorkerEnv) (parts : List Str)
    (pending : Str) (tts : List Str) (af : Nat)
    (hp : env.post_append_ok = true) (hk : 1 ≤ env.keep)
    (hft : pyStrip (joinStr parts) = []) :
    (workerFinish env parts pending tts af).1.1.getLast? = some apologyText
    ∧ (workerFinish env parts pending tts af).1.2.1.getLast?
        = some (ChatMsg.mk ("assistant".data) apologyText) := by
  unfold workerFinish
  rw [hft, hp]
  refine ⟨?_, ?_⟩ <;> split_ifs <;>
    simp_all [List.getLast?_concat, getLast?_trim_session _ _ hk]

/-- Claim C6: if the reply stream produced zero non-whitespace text (the
concatenation of all fragments is empty after stripping), the fixed
fallback apology sentence is handed to the synthesis session as the
last text input and recorded as the assistant turn in the session
memory. -/
theorem empty_reply_fallback_apology (env : WorkerEnv)
    (hc : env.connect_ok = true) (hcf : env.configure_ok = true)
    (hs : env.stream_raise_at = none) (hl : env.loop_append_fail_at = none)
    (hp : env.post_append_ok = true) (hk : 1 ≤ env.keep)
    (hw : pyStrip (joinStr env.deltas) = []) :
    (runWorker env).tts_texts.getLast? = some apologyText
    ∧ (runWorker env).msgs.getLast? = some (ChatMsg.mk ("assistant".data) apologyText) := by
  have hng := streamGo_no_fail env hs hl env.deltas 0 loopAcc0
  have hparts : (streamGo env 0 loopAcc0 env.deltas).1.parts = env.deltas := by
    simpa [loopAcc0] using hng.1
  have hft : pyStrip (joinStr (streamGo env 0 loopAcc0 env.deltas).1.parts) = [] := by
    rw [hparts]; exact hw
  have hwt : workerTry env
      = workerFinish env (streamGo env 0 loopAcc0 env.deltas).1.parts
          (streamGo env 0 loopAcc0 env.deltas).1.pending
          (streamGo env 0 loopAcc0 env.deltas).1.tts
          (streamGo env 0 loopAcc0 env.deltas).1.append_failures := by
    simp only [workerTry]
    rw [hc, hcf]
    simp [hng.2]
  have h := workerFinish_apology env (streamGo env 0 loopAcc0 env.deltas).1.parts
    (streamGo env 0 loopAcc0 env.deltas).1.pending
    (streamGo env 0 loopAcc0 env.deltas).1.tts
    (streamGo env 0 loopAcc0 env.deltas).1.append_failures hp hk hft
  simp only [runWorker]
  rw [hwt]
  exact h

/-- Witness for C6: with an empty reply stream and all calls succeeding
the apology is the last synthesis input and the recorded assistant
turn. -/
theorem empty_reply_fallback_apology_witness :
    (runWorker
        { deltas := []
          connect_ok := true
          configure_ok := true
          stream_raise_at := none
          loop_append_fail_at := none
          fallback_ok := true
          fallback_text := []
          post_append_ok := true
          finish_ok := true
          cb_chunks := []
          msgs := [ChatMsg.mk ("system".data) ("hi".data)]
          keep := 12 }).tts_texts.getLast? = some apologyText := by
  exact (empty_reply_fallback_apology _ rfl rfl rfl rfl rfl (by decide) (by decide)).1

/-! ## Streaming PCM consumer (`_iter_pcm`, app.py 661-687)

The generator feeding the HTTP streaming response: read queue items
until the `None` sentinel, skip empty chunks, trim odd-length chunks to
even length, resample through `audioop.ratecv` only when the rates
differ, skip empty conversion results, and yield the rest.  The
resampler is an external C routine, so it is a function parameter `f`
over an abstract filter-state type; `none` is the initial
(uninitialized) state. -/

/-- The even-length trim of app.py 672-673 and 825-826: an odd-length
chunk loses its last byte (`chunk[:-1]`). -/
def evenTrim (c : List Nat) : List Nat :=
  if c.length % 2 = 1 then c.dropLast else c

/-- Observable outcome of the `_iter_pcm` generator: the yielded chunks,
the chunk arguments passed to the conversion call, and the final filter
state. -/
structure PcmOut (σ : Type) where
  chunks : List (List Nat)
  convIns : List (List Nat)
  state : Option σ
deriving DecidableEq

/-- `_iter_pcm` (app.py 661-687) over a finite queue trace.  A queue
item is `some chunk` or the `none` sentinel that breaks the loop. -/
def iterPcm {σ : Type} (tsr isr : Nat)
    (f : List Nat → Option σ → List Nat × Option σ) :
    Option σ → List (Option (List Nat)) → PcmOut σ
  | st, [] => ⟨[], [], st⟩
  | st, none :: _ => ⟨[], [], st⟩
  | st, some c :: rest =>
    if c = [] then iterPcm tsr isr f st rest
    else
      let c1 := evenTrim c
      if c1 = [] then iterPcm tsr isr f st rest
      else if tsr ≠ 0 ∧ isr ≠ 0 ∧ tsr ≠ isr then
        let p := f c1 st
        let r := iterPcm tsr isr f p.2 rest
        if p.1 = [] then ⟨r.chunks, c1 :: r.convIns, r.state⟩
        else ⟨p.1 :: r.chunks, c1 :: r.convIns, r.state⟩
      else
        let r := iterPcm tsr isr f st rest
        ⟨c1 :: r.chunks, r.convIns, r.state⟩

/-- The resampler-free pass over a queue trace: consume up to the
sentinel, trim each chunk to even length, and keep the nonempty
results.  Used to characterize both the identity path of `_iter_pcm`
and its conversion inputs. -/
def identityPass : List (Option (List Nat)) → List (List Nat)
  | [] => []
  | none :: _ => []
  | some c :: rest =>
    if evenTrim c = [] then identityPass rest else evenTrim c :: identityPass rest

/-! ## WebSocket audio-forwarding loop (`_ws_handle_listen_stop`,
app.py 810-843) -/

/-- One observation of `out_q.get(timeout=0.1)`: either the queue was
empty for the whole poll interval (with the bridge stop event's current
value), or an item arrived (`none` being the end sentinel). -/
inductive QGet
  | timeoutEmpty (stop_evt_now : Bool)
  | item (c : Option (List Nat))
deriving DecidableEq

/-- One iteration's inputs for the forwarding loop: the value of the
asynchronously-set `stop_speaking` flag observed at the loop head, the
queue observation, and whether the socket send succeeds. -/
structure LoopIn where
  stop_speaking_now : Bool
  get : QGet
  send_ok : Bool
deriving DecidableEq

/-- The `while not session.stop_speaking` forwarding loop of app.py
811-841, returning the audio frames actually sent to the client. -/
def wsForward {σ : Type} (tsr isr : Nat)
    (f : List Nat → Option σ → List Nat × Option σ) :
    Option σ → List LoopIn → List (List Nat)
  | _, [] => []
  | st, i :: rest =>
    if i.stop_speaking_now then []
    else
      match i.get with
      | .timeoutEmpty stopSet =>
          if stopSet then [] else wsForward tsr isr f st rest
      | .item none => []
      | .item (some c) =>
          if c = [] then wsForward tsr isr f st rest
          else
            let c1 := evenTrim c
            if c1 = [] then wsForward tsr isr f st rest
            else if tsr ≠ 0 ∧ isr ≠ 0 ∧ tsr ≠ isr then
              let p := f c1 st
              if p.1 = [] then wsForward tsr isr f p.2 rest
              else if i.send_ok then p.1 :: wsForward tsr isr f p.2 rest else []
            else if i.send_ok then c1 :: wsForward tsr isr f st rest else []

/-! ## WebSocket connection state machine (`websocket_endpoint` and the
`_ws_handle_*` handlers, app.py 702-949) -/

inductive WsState
  | idle
  | listening
  | speaking
deriving DecidableEq

/-- `WsSession` (app.py 702-710). -/
structure WsSession where
  session_id : Str
  device_id : Str
  audio_buffer : List Nat
  sample_rate : Nat
  state : WsState
  stop_speaking : Bool
deriving DecidableEq

/-- Messages the server sends to the client. -/
inductive OutMsg
  | helloReply (sr : Nat)
  | sttMsg (text : Str)
  | ttsStart
  | ttsStop
  | audio (b : List Nat)
deriving DecidableEq

/-- Parsed control messages (the `type` dispatch at app.py 907-936). -/
inductive CtrlMsg
  | hello (sr : Option Nat)
  | listenStart (mode : Str)
  | listenStop
  | abort
  | otherCtrl
deriving DecidableEq

/-- An inbound text frame: either its payload fails to parse as JSON, or
it parses to a control message. -/
inductive TextPayload
  | malformed
  | ctrl (c : CtrlMsg)
deriving DecidableEq

/-- An inbound WebSocket event (`await ws.receive()`). -/
inductive InMsg
  | disconnect
  | text (t : TextPayload)
  | binary (b : List Nat)
deriving DecidableEq

/-- Instrumentation of one `_ws_handle_listen_stop` call: whether the
transcription call was made, whether `stop_evt.set()` ran after the
forwarding loop, and the bytes read from the capture buffer (when the
session was listening). -/
structure StopReport where
  asr_invoked : Bool
  stop_evt_set : Bool
  pcm_read : Option (List Nat)
deriving DecidableEq

/-- Process-level configuration read from the environment: the output
sample rate `QWEN_TTS_SAMPLE_RATE` and the trim bound `QWEN_MAX_TURNS`. -/
structure WsCfg where
  target_sr : Nat
  keep : Nat

/-- Oracles for one `_ws_handle_listen_stop` pipeline run: the
transcription outcome, whether bridge creation succeeds, the sample
rate the bridge reports, and the forwarding-loop observations. -/
structure StopEnv where
  asr : Except Unit Str
  bridge_ok : Bool
  in_sr : Nat
  loop_items : List LoopIn

structure StopOut where
  session : WsSession
  out : List OutMsg
  msgs : List ChatMsg
  report : StopReport
deriving DecidableEq

/-- `_ws_handle_listen_stop` (app.py 740-856): guard on the listening
state, read the capture buffer, skip the pipeline when fewer than 1600
bytes were captured, transcribe, return to idle on transcription
failure or empty text, otherwise emit the transcript notification,
append and trim the user turn, emit synthesis-start, run the
forwarding loop, set the bridge stop event, emit synthesis-stop and
return to idle. -/
def wsHandleListenStop {σ : Type}
    (f : List Nat → Option σ → List Nat × Option σ) (cfg : WsCfg)
    (env : StopEnv) (s : WsSession) (msgs : List ChatMsg) : StopOut :=
  if s.state ≠ .listening then ⟨s, [], msgs, ⟨false, false, none⟩⟩
  else
    let s1 := { s with state := .speaking, stop_speaking := false }
    let pcm := s1.audio_buffer
    if pcm.length < 1600 then
      ⟨{ s1 with state := .idle }, [], msgs, ⟨false, false, some pcm⟩⟩
    else
      match env.asr with
      | .error _ => ⟨{ s1 with state := .idle }, [], msgs, ⟨true, false, some pcm⟩⟩
      | .ok t =>
        let user := pyStrip t
        if user = [] then
          ⟨{ s1 with state := .idle }, [], msgs, ⟨true, false, some pcm⟩⟩
        else
          let msgs1 := trim_session (msgs ++ [ChatMsg.mk ("user".data) user]) cfg.keep
          if env.bridge_ok then
            let frames := wsForward cfg.target_sr env.in_sr f none env.loop_items
            ⟨{ s1 with state := .idle },
              [OutMsg.sttMsg user, OutMsg.ttsStart]
                ++ frames.map OutMsg.audio ++ [OutMsg.ttsStop],
              msgs1, ⟨true, true, some pcm⟩⟩
          else
            ⟨{ s1 with state := .idle },
              [OutMsg.sttMsg user, OutMsg.ttsStart, OutMsg.ttsStop],
              msgs1, ⟨true, false, some pcm⟩⟩

structure WsStepOut where
  session : WsSession
  out : List OutMsg
  msgs : List ChatMsg
  halt : Bool
  report : Option StopReport
deriving DecidableEq

/-- One iteration of the receive loop of `websocket_endpoint`
(app.py 894-941): dispatch on the inbound event.  Malformed JSON is
dropped (`continue`), `hello` records the client rate and replies,
`listen start/stop` and `abort` call their handlers, binary frames are
buffered only in the listening state, and a disconnect halts the
loop. -/
def wsStep {σ : Type} (f : List Nat → Option σ → List Nat × Option σ)
    (cfg : WsCfg) (env : StopEnv) (s : WsSession) (msgs : List ChatMsg) :
    InMsg → WsStepOut
  | .disconnect => ⟨s, [], msgs, true, none⟩
  | .text .malformed => ⟨s, [], msgs, false, none⟩
  | .text (.ctrl (.hello sr)) =>
      ⟨{ s with sample_rate := sr.getD 16000 },
        [.helloReply cfg.target_sr], msgs, false, none⟩
  | .text (.ctrl (.listenStart _mode)) =>
      ⟨{ s with audio_buffer := [], state := .listening }, [], msgs, false, none⟩
  | .text (.ctrl .listenStop) =>
      let r := wsHandleListenStop f cfg env s msgs
      ⟨r.session, r.out, r.msgs, false, some r.report⟩
  | .text (.ctrl .abort) =>
      ⟨{ s with stop_speaking := true }, [], msgs, false, none⟩
  | .text (.ctrl .otherCtrl) => ⟨s, [], msgs, false, none⟩
  | .binary b =>
      if s.state = .listening then
        ⟨{ s with audio_buffer := s.audio_buffer ++ b }, [], msgs, false, none⟩
      else ⟨s, [], msgs, false, none⟩

structure WsRunOut where
  session : WsSession
  msgs : List ChatMsg
  out : List OutMsg
  reports : List StopReport
deriving DecidableEq

/-- The receive loop over a finite inbound trace, collecting outbound
messages and the reports of the listen-stop handler runs. -/
def wsRun {σ : Type} (f : List Nat → Option σ → List Nat × Option σ)
    (cfg : WsCfg) (env : StopEnv) :
    WsSession → List ChatMsg → List InMsg → WsRunOut
  | s, msgs, [] => ⟨s, msgs, [], []⟩
  | s, msgs, m :: rest =>
    let o := wsStep f cfg env s msgs m
    if o.halt then ⟨o.session, o.msgs, o.out, o.report.toList⟩
    else
      let r := wsRun f cfg env o.session o.msgs rest
      ⟨r.session, r.msgs, o.out ++ r.out, o.report.toList ++ r.reports⟩

theorem evenTrim_even (c : List Nat) : (evenTrim c).length % 2 = 0 := by
  unfold evenTrim
  split
  · rw [List.length_dropLast]
    omega
  · omega

theorem evenTrim_odd (c : List Nat) (h : c.length % 2 = 1) :
    evenTrim c = c.dropLast := by
  unfold evenTrim
  rw [if_pos h]

theorem iterPcm_eq_rates {σ : Type} (sr : Nat)
    (f : List Nat → Option σ → List Nat × Option σ) :
    ∀ (items : List (Option (List Nat))) (st : Option σ),
      iterPcm sr sr f st items = ⟨identityPass items, [], st⟩ := by
  intro items
  induction items with
  | nil => intro st; rfl
  | cons h t ih =>
      intro st
      cases h with
      | none => rfl
      | some c =>
          rw [iterPcm, identityPass]
          by_cases hc : c = []
          · subst hc
            simp [evenTrim, ih st]
          · rw [if_neg hc]
            by_cases h1 : evenTrim c = []
            · simp [h1, ih st]
            · rw [if_neg h1, if_neg (by simp), if_neg h1]
              simp [ih st]

/-- Claim C7: when the source and target rates are equal, the streaming
consumer is the identity on the (even-trimmed, nonempty) chunks up to
the sentinel, the conversion call is never made, its filter state is
passed through untouched, and every nonempty even-length chunk passes
through unchanged. -/
theorem resampler_identity_when_rates_equal {σ : Type} (sr : Nat)
    (f : List Nat → Option σ → List Nat × Option σ) (st : Option σ)
    (items : List (Option (List Nat))) :
    iterPcm sr sr f st items = ⟨identityPass items, [], st⟩
    ∧ (∀ c : List Nat, c ≠ [] → c.length % 2 = 0 → evenTrim c = c) := by
  refine ⟨iterPcm_eq_rates sr f items st, ?_⟩
  intro c _hne he
  unfold evenTrim
  rw [if_neg (by omega)]

/-- Witness for C7: a concrete run with equal rates, where an even chunk
passes unchanged, a one-byte chunk is dropped, and the sentinel ends the
stream before the last chunk. -/
theorem resampler_identity_witness :
    iterPcm 16000 16000 (fun c (st : Option Unit) => (c, st)) none
        [some [1, 2], some [3], none, some [9, 9]]
      = ⟨[[1, 2]], [], none⟩ := by
  rw [(resampler_identity_when_rates_equal 16000
    (fun c (st : Option Unit) => (c, st)) none
    [some [1, 2], some [3], none, some [9, 9]]).1]
  decide

theorem iterPcm_convIns_eq {σ : Type} (tsr isr : Nat)
    (f : List Nat → Option σ → List Nat × Option σ)
    (h1 : tsr ≠ 0) (h2 : isr ≠ 0) (h3 : tsr ≠ isr) :
    ∀ (items : List (Option (List Nat))) (st : Option σ),
      (iterPcm tsr isr f st items).convIns = identityPass items := by
  intro items
  induction items with
  | nil => intro st; rfl
  | cons hd t ih =>
      intro st
      cases hd with
      | none => rfl
      | some c =>
          rw [iterPcm, identityPass]
          by_cases hc : c = []
          · subst hc
            simp [evenTrim, ih st]
          · rw [if_neg hc]
            by_cases he : evenTrim c = []
            · simp [he, ih st]
            · rw [if_neg he, if_pos ⟨h1, h2, h3⟩, if_neg he]
              by_cases hp : (f (evenTrim c) st).1 = []
              · simp [hp, ih]
              · simp [hp, ih]

theorem iterPcm_convIns_mem {σ : Type} (tsr isr : Nat)
    (f : List Nat → Option σ → List Nat × Option σ) :
    ∀ (items : List (Option (List Nat))) (st : Option σ),
      ∀ x ∈ (iterPcm tsr isr f st items).convIns,
        x ≠ [] ∧ x.length % 2 = 0 := by
  intro items
  induction items with
  | nil => intro st x hx; simp [iterPcm] at hx
  | cons hd t ih =>
      intro st x hx
      cases hd with
      | none => simp [iterPcm] at hx
      | some c =>
          rw [iterPcm] at hx
          by_cases hc : c = []
          · rw [if_pos hc] at hx
            exact ih st x hx
          · rw [if_neg hc] at hx
            by_cases he : evenTrim c = []
            · rw [if_pos he] at hx
              exact ih st x hx
            · rw [if_neg he] at hx
              by_cases hr : tsr ≠ 0 ∧ isr ≠ 0 ∧ tsr ≠ isr
              · rw [if_pos hr] at hx
                by_cases hp : (f (evenTrim c) st).1 = []
                · rw [if_pos hp] at hx
                  simp only [List.mem_cons] at hx
                  rcases hx with rfl | hx
                  · exact ⟨he, evenTrim_even c⟩
                  · exact ih _ x hx
                · rw [if_neg hp] at hx
                  simp only [List.mem_cons] at hx
                  rcases hx with rfl | hx
                  · exact ⟨he, evenTrim_even c⟩
                  · exact ih _ x hx
              · rw [if_neg hr] at hx
                exact ih st x hx

theorem iterPcm_chunks_even {σ : Type} (tsr isr : Nat)
    (f : List Nat → Option σ → List Nat × Option σ)
    (hf : ∀ c s, c ≠ [] → c.length % 2 = 0 → ((f c s).1).length % 2 = 0) :
    ∀ (items : List (Option (List Nat))) (st : Option σ),
      ∀ out ∈ (iterPcm tsr isr f st items).chunks, out.length % 2 = 0 := by
  intro items
  induction items with
  | nil => intro st out hout; simp [iterPcm] at hout
  | cons hd t ih =>
      intro st out hout
      cases hd with
      | none => simp [iterPcm] at hout
      | some c =>
          rw [iterPcm] at hout
          by_cases hc : c = []
          · rw [if_pos hc] at hout
            exact ih st out hout
          · rw [if_neg hc] at hout
            by_cases he : evenTrim c = []
            · rw [if_pos he] at hout
              exact ih st out hout
            · rw [if_neg he] at hout
              by_cases hr : tsr ≠ 0 ∧ isr ≠ 0 ∧ tsr ≠ isr
              · rw [if_pos hr] at hout
                by_cases hp : (f (evenTrim c) st).1 = []
                · rw [if_pos hp] at hout
                  exact ih _ out hout
                · rw [if_neg hp] at hout
                  simp only [List.mem_cons] at hout
                  rcases hout with rfl | hout
                  · exact hf _ _ he (evenTrim_even c)
                  · exact ih _ out hout
              · rw [if_neg hr] at hout
                simp only [List.mem_cons] at hout
                rcases hout with rfl | hout
                · exact evenTrim_even c
                · exact ih st out hout

theorem wsForward_frames_even {σ : Type} (tsr isr : Nat)
    (f : List Nat → Option σ → List Nat × Option σ)
    (hf : ∀ c s, c ≠ [] → c.length % 2 = 0 → ((f c s).1).length % 2 = 0) :
    ∀ (ins : List LoopIn) (st : Option σ),
      ∀ fr ∈ wsForward tsr isr f st ins, fr.length % 2 = 0 := by
  intro ins
  induction ins with
  | nil => intro st fr hfr; simp [wsForward] at hfr
  | cons i rest ih =>
      intro st fr hfr
      obtain ⟨ss, g, so⟩ := i
      cases ss with
      | true =>
          rw [show wsForward tsr isr f st (LoopIn.mk true g so :: rest) = [] from rfl] at hfr
          simp at hfr
      | false =>
        cases g with
        | timeoutEmpty b =>
            cases b with
            | true =>
                rw [show wsForward tsr isr f st
                    (LoopIn.mk false (QGet.timeoutEmpty true) so :: rest) = [] from rfl] at hfr
                simp at hfr
            | false =>
                rw [show wsForward tsr isr f st
                    (LoopIn.mk false (QGet.timeoutEmpty false) so :: rest)
                    = wsForward tsr isr f st rest from rfl] at hfr
                exact ih st fr hfr
        | item oc =>
            cases oc with
            | none =>
                rw [show wsForward tsr isr f st
                    (LoopIn.mk false (QGet.item none) so :: rest) = [] from rfl] at hfr
                simp at hfr
            | some c =>
                rw [show wsForward tsr isr f st
                    (LoopIn.mk false (QGet.item (some c)) so :: rest)
                    = (if c = [] then wsForward tsr isr f st rest
                      else if evenTrim c = [] then wsForward tsr isr f st rest
                      else if tsr ≠ 0 ∧ isr ≠ 0 ∧ tsr ≠ isr then
                        (if (f (evenTrim c) st).1 = [] then
                            wsForward tsr isr f (f (evenTrim c) st).2 rest
                          else if so = true then
                            (f (evenTrim c) st).1
                              :: wsForward tsr isr f (f (evenTrim c) st).2 rest
                          else [])
                      else (if so = true then evenTrim c :: wsForward tsr isr f st rest
                        else [])) from rfl] at hfr
                by_cases hc : c = []
                · rw [if_pos hc] at hfr
                  exact ih st fr hfr
                · rw [if_neg hc] at hfr
                  by_cases he : evenTrim c = []
                  · rw [if_pos he] at hfr
                    exact ih st fr hfr
                  · rw [if_neg he] at hfr
                    by_cases hr : tsr ≠ 0 ∧ isr ≠ 0 ∧ tsr ≠ isr
                    · rw [if_pos hr] at hfr
                      by_cases hp : (f (evenTrim c) st).1 = []
                      · rw [if_pos hp] at hfr
                        exact ih _ fr hfr
                      · rw [if_neg hp] at hfr
                        by_cases hsend : so = true
                        · rw [if_pos hsend] at hfr
                          simp only [List.mem_cons] at hfr
                          rcases hfr with rfl | hfr
                          · exact hf _ _ he (evenTrim_even c)
                          · exact ih _ fr hfr
                        · rw [if_neg hsend] at hfr
                          simp at hfr
                    · rw [if_neg hr] at hfr
                      by_cases hsend : so = true
                      · rw [if_pos hsend] at hfr
                        simp only [List.mem_cons] at hfr
                        rcases hfr with rfl | hfr
                        · exact evenTrim_even c
                        · exact ih st fr hfr
                      · rw [if_neg hsend] at hfr
                        simp at hfr

/-- Claim C8: an odd-length chunk loses exactly its last byte before
conversion and the loss is never carried to a later call (the i-th
conversion input depends only on the i-th surviving chunk); every chunk
passed to conversion is nonempty and of even length; and, provided the
resampler preserves even length (as `audioop.ratecv` does for 16-bit
frames), every chunk emitted by either streaming loop has even
length. -/
theorem odd_byte_trimming :
    (∀ c : List Nat, c.length % 2 = 1 → evenTrim c = c.dropLast)
    ∧ (∀ c : List Nat, (evenTrim c).length % 2 = 0)
    ∧ (∀ (σ : Type) (tsr isr : Nat)
        (f : List Nat → Option σ → List Nat × Option σ)
        (st : Option σ) (items : List (Option (List Nat))),
        tsr ≠ 0 → isr ≠ 0 → tsr ≠ isr →
          (iterPcm tsr isr f st items).convIns = identityPass items)
    ∧ (∀ (σ : Type) (tsr isr : Nat)
        (f : List Nat → Option σ → List Nat × Option σ)
        (st : Option σ) (items : List (Option (List Nat))),
        ∀ x ∈ (iterPcm tsr isr f st items).convIns,
          x ≠ [] ∧ x.length % 2 = 0)
    ∧ (∀ (σ : Type) (tsr isr : Nat)
        (f : List Nat → Option σ → List Nat × Option σ),
        (∀ c s, c ≠ [] → c.length % 2 = 0 → ((f c s).1).length % 2 = 0) →
        (∀ (st : Option σ) (items : List (Option (List Nat))),
            ∀ out ∈ (iterPcm tsr isr f st items).chunks, out.length % 2 = 0)
        ∧ (∀ (st : Option σ) (ins : List LoopIn),
            ∀ fr ∈ wsForward tsr isr f st ins, fr.length % 2 = 0)) := by
  refine ⟨evenTrim_odd, evenTrim_even, ?_, ?_, ?_⟩
  · intro σ tsr isr f st items h1 h2 h3
    exact iterPcm_convIns_eq tsr isr f h1 h2 h3 items st
  · intro σ tsr isr f st items
    exact iterPcm_convIns_mem tsr isr f items st
  · intro σ tsr isr f hf
    exact ⟨fun st items => iterPcm_chunks_even tsr isr f hf items st,
      fun st ins => wsForward_frames_even tsr isr f hf ins st⟩

/-- Witness for C8: a three-byte chunk is trimmed to its first two
bytes, and a concrete resampling run records exactly that trimmed chunk
as the conversion input. -/
theorem odd_byte_trimming_witness :
    evenTrim [1, 2, 3] = [1, 2]
      ∧ (iterPcm 24000 16000 (fun c (st : Option Unit) => (c, st)) none
          [some [1, 2, 3]]).convIns = [[1, 2]] := by
  refine ⟨odd_byte_trimming.1 [1, 2, 3] (by decide), ?_⟩
  rw [odd_byte_trimming.2.2.1 Unit 24000 16000
    (fun c (st : Option Unit) => (c, st)) none [some [1, 2, 3]]
    (by decide) (by decide) (by decide)]
  decide

/-! Reduction equations for `wsForward`, one per shape of the next loop
input.  All hold by definitional unfolding. -/

theorem wsForward_nil {σ : Type} (tsr isr : Nat)
    (f : List Nat → Option σ → List Nat × Option σ) (st : Option σ) :
    wsForward tsr isr f st [] = [] := rfl

theorem wsForward_cons_flagged {σ : Type} (tsr isr : Nat)
    (f : List Nat → Option σ → List Nat × Option σ) (st : Option σ)
    (g : QGet) (so : Bool) (rest : List LoopIn) :
    wsForward tsr isr f st (LoopIn.mk true g so :: rest) = [] := rfl

theorem wsForward_cons_poll_stop {σ : Type} (tsr isr : Nat)
    (f : List Nat → Option σ → List Nat × Option σ) (st : Option σ)
    (so : Bool) (rest : List LoopIn) :
    wsForward tsr isr f st (LoopIn.mk false (QGet.timeoutEmpty true) so :: rest) = [] := rfl

theorem wsForward_cons_poll {σ : Type} (tsr isr : Nat)
    (f : List Nat → Option σ → List Nat × Option σ) (st : Option σ)
    (so : Bool) (rest : List LoopIn) :
    wsForward tsr isr f st (LoopIn.mk false (QGet.timeoutEmpty false) so :: rest)
      = wsForward tsr isr f st rest := rfl

theorem wsForward_cons_sentinel {σ : Type} (tsr isr : Nat)
    (f : List Nat → Option σ → List Nat × Option σ) (st : Option σ)
    (so : Bool) (rest : List LoopIn) :
    wsForward tsr isr f st (LoopIn.mk false (QGet.item none) so :: rest) = [] := rfl

theorem wsForward_cons_chunk {σ : Type} (tsr isr : Nat)
    (f : List Nat → Option σ → List Nat × Option σ) (st : Option σ)
    (c : List Nat) (so : Bool) (rest : List LoopIn) :
    wsForward tsr isr f st (LoopIn.mk false (QGet.item (some c)) so :: rest)
      = (if c = [] then wsForward tsr isr f st rest
          else if evenTrim c = [] then wsForward tsr isr f st rest
          else if tsr ≠ 0 ∧ isr ≠ 0 ∧ tsr ≠ isr then
            (if (f (evenTrim c) st).1 = [] then
                wsForward tsr isr f (f (evenTrim c) st).2 rest
              else if so = true then
                (f (evenTrim c) st).1 :: wsForward tsr isr f (f (evenTrim c) st).2 rest
              else [])
          else (if so = true then evenTrim c :: wsForward tsr isr f st rest
            else [])) := rfl

theorem wsForward_stop_prefix {σ : Type} (tsr isr : Nat)
    (f : List Nat → Option σ → List Nat × Option σ) :
    ∀ (pre : List LoopIn) (x : LoopIn) (post : List LoopIn) (st : Option σ),
      x.stop_speaking_now = true →
      wsForward tsr isr f st (pre ++ x :: post) = wsForward tsr isr f st pre := by
  intro pre
  induction pre with
  | nil =>
      intro x post st hx
      obtain ⟨ss, g, so⟩ := x
      cases ss with
      | true => rw [List.nil_append, wsForward_cons_flagged, wsForward_nil]
      | false => simp at hx
  | cons i pre ih =>
      intro x post st hx
      obtain ⟨ss, g, so⟩ := i
      rw [List.cons_append]
      cases ss with
      | true => rw [wsForward_cons_flagged, wsForward_cons_flagged]
      | false =>
          cases g with
          | timeoutEmpty b =>
              cases b with
              | true => rw [wsForward_cons_poll_stop, wsForward_cons_poll_stop]
              | false =>
                  rw [wsForward_cons_poll, wsForward_cons_poll]
                  exact ih x post st hx
          | item oc =>
              cases oc with
              | none => rw [wsForward_cons_sentinel, wsForward_cons_sentinel]
              | some c =>
                  rw [wsForward_cons_chunk, wsForward_cons_chunk]
                  by_cases hc : c = []
                  · rw [if_pos hc, if_pos hc]
                    exact ih x post st hx
                  · rw [if_neg hc, if_neg hc]
                    by_cases he : evenTrim c = []
                    · rw [if_pos he, if_pos he]
                      exact ih x post st hx
                    · rw [if_neg he, if_neg he]
                      by_cases hr : tsr ≠ 0 ∧ isr ≠ 0 ∧ tsr ≠ isr
                      · rw [if_pos hr, if_pos hr]
                        by_cases hp : (f (evenTrim c) st).1 = []
                        · rw [if_pos hp, if_pos hp]
                          exact ih x post _ hx
                        · rw [if_neg hp, if_neg hp]
                          by_cases hsend : so = true
                          · rw [if_pos hsend, if_pos hsend, ih x post _ hx]
                          · rw [if_neg hsend, if_neg hsend]
                      · rw [if_neg hr, if_neg hr]
                        by_cases hsend : so = true
                        · rw [if_pos hsend, if_pos hsend, ih x post st hx]
                        · rw [if_neg hsend, if_neg hsend]

/-- Claim C4: an inbound text frame whose payload is not valid JSON is
dropped: the session state is unchanged, nothing is sent to the client,
the connection is not closed, and the receive loop just continues. -/
theorem malformed_json_dropped {σ : Type}
    (f : List Nat → Option σ → List Nat × Option σ) (cfg : WsCfg)
    (env : StopEnv) (s : WsSession) (msgs : List ChatMsg) :
    wsStep f cfg env s msgs (.text .malformed) = ⟨s, [], msgs, false, none⟩ := rfl

theorem ws_listen_stop_full {σ : Type}
    (f : List Nat → Option σ → List Nat × Option σ) (cfg : WsCfg)
    (env : StopEnv) (s : WsSession) (msgs : List ChatMsg) (t : Str)
    (hstate : s.state = .listening) (hlen : 1600 ≤ s.audio_buffer.length)
    (hasr : env.asr = .ok t) (ht : pyStrip t ≠ []) (hb : env.bridge_ok = true) :
    wsHandleListenStop f cfg env s msgs
      = ⟨{ s with state := .idle, stop_speaking := false },
          [OutMsg.sttMsg (pyStrip t), OutMsg.ttsStart]
            ++ (wsForward cfg.target_sr env.in_sr f none env.loop_items).map OutMsg.audio
            ++ [OutMsg.ttsStop],
          trim_session (msgs ++ [ChatMsg.mk ("user".data) (pyStrip t)]) cfg.keep,
          ⟨true, true, some s.audio_buffer⟩⟩ := by
  simp only [wsHandleListenStop, hstate, hasr, hb]
  rw [if_neg (by simp)]
  rw [if_neg (by simp; omega)]
  rw [if_neg ht]
  rfl

/-- Claim C5: the abort control message sets the abort flag in any state
and changes nothing else; the forwarding loop checks the flag at every
iteration, so once it is observed no further audio frames are sent; and
on the normal pipeline path the bridge stop event is set after the loop
and the synthesis-stop notification is still sent (as the final
outbound message). -/
theorem abort_stops_audio_forwarding {σ : Type}
    (f : List Nat → Option σ → List Nat × Option σ) (cfg : WsCfg)
    (env : StopEnv) (s : WsSession) (msgs : List ChatMsg) :
    (wsStep f cfg env s msgs (.text (.ctrl .abort))
        = ⟨{ s with stop_speaking := true }, [], msgs, false, none⟩)
    ∧ (∀ (tsr isr : Nat) (st : Option σ) (pre post : List LoopIn) (x : LoopIn),
        x.stop_speaking_now = true →
        wsForward tsr isr f st (pre ++ x :: post) = wsForward tsr isr f st pre)
    ∧ (∀ (t : Str), s.state = .listening → 1600 ≤ s.audio_buffer.length →
        env.asr = .ok t → pyStrip t ≠ [] → env.bridge_ok = true →
        (wsHandleListenStop f cfg env s msgs).report.stop_evt_set = true
        ∧ (wsHandleListenStop f cfg env s msgs).out.getLast? = some OutMsg.ttsStop) := by
  refine ⟨rfl, ?_, ?_⟩
  · intro tsr isr st pre post x hx
    exact wsForward_stop_prefix tsr isr f pre x post st hx
  · intro t hstate hlen hasr ht hb
    rw [ws_listen_stop_full f cfg env s msgs t hstate hlen hasr ht hb]
    refine ⟨rfl, ?_⟩
    rw [List.append_assoc, List.getLast?_append_of_ne_nil _ (by simp),
      List.getLast?_append_of_ne_nil _ (by simp)]
    rfl

/-- Witness for C5: a concrete session in the listening state with a
3200-byte capture, a nonempty transcript and a mid-stream abort: the
frames before the abort flag is observed are sent, nothing after it,
the stop event is set and synthesis-stop is the final message. -/
theorem abort_stops_audio_forwarding_witness :
    (wsForward 16000 16000 (fun c (st : Option Unit) => (c, st)) none
        ([LoopIn.mk false (QGet.item (some [1, 2])) true]
          ++ LoopIn.mk true (QGet.item (some [3, 4])) true
            :: [LoopIn.mk false (QGet.item (some [5, 6])) true])
      = wsForward 16000 16000 (fun c (st : Option Unit) => (c, st)) none
          [LoopIn.mk false (QGet.item (some [1, 2])) true])
    ∧ (wsHandleListenStop (fun c (st : Option Unit) => (c, st))
        ⟨16000, 12⟩ ⟨Except.ok ("好".data), true, 16000, []⟩
        ⟨[], [], List.replicate 3200 0, 16000, .listening, false⟩
        []).report.stop_evt_set = true := by
  have h := abort_stops_audio_forwarding (fun c (st : Option Unit) => (c, st))
    ⟨16000, 12⟩ ⟨Except.ok ("好".data), true, 16000, []⟩
    ⟨[], [], List.replicate 3200 0, 16000, .listening, false⟩ []
  refine ⟨h.2.1 16000 16000 none
      [LoopIn.mk false (QGet.item (some [1, 2])) true]
      [LoopIn.mk false (QGet.item (some [5, 6])) true]
      (LoopIn.mk true (QGet.item (some [3, 4])) true) rfl, ?_⟩
  exact (h.2.2 ("好".data) rfl (by rw [List.length_replicate]; omega) rfl (by decide) rfl).1

theorem ws_asr_invoked {σ : Type}
    (f : List Nat → Option σ → List Nat × Option σ) (cfg : WsCfg)
    (env : StopEnv) (s : WsSession) (msgs : List ChatMsg)
    (h : s.state = .listening) (hlen : ¬ s.audio_buffer.length < 1600) :
    (wsHandleListenStop f cfg env s msgs).report.asr_invoked = true := by
  simp only [wsHandleListenStop, h]
  rw [if_neg (by simp), if_neg hlen]
  rcases henv : env.asr with u | t <;> simp only [henv] <;> split_ifs <;> rfl

theorem ws_pcm_read {σ : Type}
    (f : List Nat → Option σ → List Nat × Option σ) (cfg : WsCfg)
    (env : StopEnv) (s : WsSession) (msgs : List ChatMsg)
    (h : s.state = .listening) :
    (wsHandleListenStop f cfg env s msgs).report.pcm_read = some s.audio_buffer := by
  simp only [wsHandleListenStop, h]
  rw [if_neg (by simp)]
  rcases henv : env.asr with u | t <;> simp only [henv] <;> split_ifs <;> rfl

theorem wsRun_binaries {σ : Type}
    (f : List Nat → Option σ → List Nat × Option σ) (cfg : WsCfg) (env : StopEnv) :
    ∀ (bs : List (List Nat)) (s : WsSession) (msgs : List ChatMsg),
      s.state = .listening →
      wsRun f cfg env s msgs (bs.map InMsg.binary ++ [InMsg.text (.ctrl .listenStop)])
        = ⟨(wsHandleListenStop f cfg env
              { s with audio_buffer := s.audio_buffer ++ bs.flatten } msgs).session,
            (wsHandleListenStop f cfg env
              { s with audio_buffer := s.audio_buffer ++ bs.flatten } msgs).msgs,
            (wsHandleListenStop f cfg env
              { s with audio_buffer := s.audio_buffer ++ bs.flatten } msgs).out,
            [(wsHandleListenStop f cfg env
              { s with audio_buffer := s.audio_buffer ++ bs.flatten } msgs).report]⟩ := by
  intro bs
  induction bs with
  | nil =>
      intro s msgs h
      rw [List.map_nil, List.nil_append, wsRun]
      simp [wsStep, wsRun]
  | cons b bs ih =>
      intro s msgs h
      rw [List.map_cons, List.cons_append, wsRun]
      simp only [wsStep, h, eq_self_iff_true, if_true, Bool.false_eq_true, if_false]
      rw [ih ⟨s.session_id, s.device_id, s.audio_buffer ++ b, s.sample_rate,
        WsState.listening, s.stop_speaking⟩ msgs rfl]
      simp [List.flatten_cons, List.append_assoc]

/-- Claim C9: binary frames are appended to the capture buffer only in
the listening state (a frame arriving in any other state leaves the
session untouched), listen-start resets the buffer to empty, and the
bytes the listen-stop handler reads are exactly the concatenation, in
arrival order, of the frames written while listening. -/
theorem capture_buffer_semantics {σ : Type}
    (f : List Nat → Option σ → List Nat × Option σ) (cfg : WsCfg)
    (env : StopEnv) :
    (∀ (s : WsSession) (msgs : List ChatMsg) (b : List Nat),
        s.state ≠ .listening →
        wsStep f cfg env s msgs (.binary b) = ⟨s, [], msgs, false, none⟩)
    ∧ (∀ (s : WsSession) (msgs : List ChatMsg) (mode : Str),
        wsStep f cfg env s msgs (.text (.ctrl (.listenStart mode)))
          = ⟨{ s with audio_buffer := [], state := .listening }, [], msgs, false, none⟩)
    ∧ (∀ (s : WsSession) (msgs : List ChatMsg) (mode : Str) (bs : List (List Nat)),
        (wsRun f cfg env s msgs
            (InMsg.text (.ctrl (.listenStart mode)) :: bs.map InMsg.binary
              ++ [InMsg.text (.ctrl .listenStop)])).reports.map
          (fun r => r.pcm_read) = [some bs.flatten]) := by
  refine ⟨?_, fun s msgs mode => rfl, ?_⟩
  · intro s msgs b h
    simp [wsStep, h]
  · intro s msgs mode bs
    rw [List.cons_append, wsRun]
    simp only [wsStep]
    rw [if_neg (by simp)]
    rw [wsRun_binaries f cfg env bs
      { s with audio_buffer := [], state := .listening } msgs rfl]
    simp only [Option.toList, List.nil_append, List.map_cons]
    rw [ws_pcm_read f cfg env _ msgs rfl]
    simp

/-- Witness for C9: a concrete listening session built by listen-start,
two binary frames, then listen-stop; the handler reads exactly their
concatenation. -/
theorem capture_buffer_semantics_witness :
    (wsRun (fun c (st : Option Unit) => (c, st)) ⟨16000, 12⟩
        ⟨Except.ok [], true, 16000, []⟩
        ⟨[], [], [7, 7, 7], 16000, .idle, false⟩ []
        (InMsg.text (.ctrl (.listenStart ("auto".data)))
          :: [[1, 2], [3, 4]].map InMsg.binary
          ++ [InMsg.text (.ctrl .listenStop)])).reports.map
      (fun r => r.pcm_read) = [some [1, 2, 3, 4]] := by
  have h := (capture_buffer_semantics (fun c (st : Option Unit) => (c, st))
    ⟨16000, 12⟩ ⟨Except.ok [], true, 16000, []⟩).2.2
    ⟨[], [], [7, 7, 7], 16000, .idle, false⟩ [] ("auto".data) [[1, 2], [3, 4]]
  rw [h]
  decide

/-! ## C1: the end-to-end short-capture scenario -/

/-- The concrete trace of the C1 scenario: handshake at 16000 Hz,
listen-start, a single 2000-byte frame, listen-stop. -/
def c1Trace : List InMsg :=
  [InMsg.text (.ctrl (.hello (some 16000))),
    InMsg.text (.ctrl (.listenStart ("auto".data))),
    InMsg.binary (List.replicate 2000 0),
    InMsg.text (.ctrl .listenStop)]

def c1Session : WsSession :=
  ⟨"s1".data, "default".data, [], 16000, .idle, false⟩

def c1Env : StopEnv := ⟨Except.ok ("你好".data), true, 16000, []⟩

/-- Claim C1, evaluated at the failing input: after the handshake, a
listen-start and exactly 2000 bytes of audio, the listen-stop handler
DOES invoke transcription, because the code's guard is
`len(pcm_bytes) < 1600` even though 100 ms at 16 kHz 16-bit mono is
3200 bytes (the inline comment calls 1600 bytes "less than 100ms").
The captured 2000 bytes are below the specified 100 ms minimum, yet the
pipeline runs instead of returning to idle. -/
theorem short_audio_2000_bytes_runs_asr :
    ((wsRun (fun c (st : Option Unit) => (c, st)) ⟨16000, 12⟩ c1Env c1Session []
        c1Trace).reports.map (fun r => r.asr_invoked) = [true])
    ∧ (List.replicate 2000 (0 : Nat)).length < 3200 := by
  constructor
  · rw [show c1Trace = InMsg.text (.ctrl (.hello (some 16000)))
        :: (InMsg.text (.ctrl (.listenStart ("auto".data)))
          :: ([List.replicate 2000 0].map InMsg.binary
            ++ [InMsg.text (.ctrl .listenStop)])) from rfl]
    rw [wsRun]
    simp only [wsStep, Bool.false_eq_true, if_false]
    rw [wsRun]
    simp only [wsStep, Bool.false_eq_true, if_false]
    rw [wsRun_binaries]
    · simp only [Option.toList, List.nil_append, List.map_cons, List.map_nil,
        List.flatten_cons, List.flatten_nil, List.append_nil]
      rw [ws_asr_invoked]
      · rfl
      · rw [List.length_replicate]
        omega
    · rfl
  · rw [List.length_replicate]
    omega

end QwenProxy
